import Mathlib

/-!
Verification of the rule-based English/Braille transcoder.

The development shallowly embeds the transcoding engine: the Grade-1
letter codec and Grade-2 word resolver of generate_data.py (namespace
GenData), and the Grade-1 codec, Grade-2 resolver and bounded-compression
routine of generate_hybrid.py (namespace GenHybrid).  Text is modelled as
List Char; Python str.replace is modelled by replaceAll (left-to-right,
non-overlapping, global); Python's stable sorted(..., key=lambda x:
-len(x[0])) is modelled by the stable insertion sort sortByLenDesc;
dict lookup is modelled by association-list lookup (keys in each table
are distinct), and dict-comprehension inversion (later entries win) by
lookup over the reversed pair-swapped list.  Python str.lower and
str.isalpha are modelled by their ASCII restrictions Char.toLower and
Char.isAlpha, which agree with Python on every character set at issue.
The while-loop of compress_to_n_cells is modelled with explicit fuel so
that non-termination of the source loop is expressible as: no fuel
suffices.
-/

/-- The characters of a string literal, the form all model inputs take. -/
def chars (s : String) : List Char := s.data

/-- A six-dot Braille cell: a code point in the Unicode Braille block,
matching the cell test used by the repository's validation probes. -/
def isBrailleCell (c : Char) : Bool := 0x2800 ≤ c.toNat && c.toNat ≤ 0x28FF

/-- Association-list lookup, modelling Python dict access (each table's
keys are distinct, so first match agrees with dict semantics). -/
def lookupTable {α β : Type} [DecidableEq α] : List (α × β) → α → Option β
  | [], _ => none
  | (k, v) :: t, x => if k = x then some v else lookupTable t x

/-- Boolean list-prefix test (explicit recursion, used by replaceFuel). -/
def hasPfx : List Char → List Char → Bool
  | [], _ => true
  | _ :: _, [] => false
  | a :: as, b :: bs => a == b && hasPfx as bs

/-- Whether pat occurs as a contiguous substring. -/
def containsPat (pat : List Char) : List Char → Bool
  | [] => pat.isEmpty
  | c :: cs => hasPfx pat (c :: cs) || containsPat pat cs

/-- Fuelled global substring replacement: scan left to right, replace each
non-overlapping occurrence of pat by rep, as Python str.replace does.
One unit of fuel is spent per scan step, and at least one character is
consumed per step, so fuel = length of the text is always enough. -/
def replaceFuel (pat rep : List Char) : Nat → List Char → List Char
  | 0, s => s
  | _ + 1, [] => []
  | fuel + 1, c :: cs =>
    if pat ≠ [] ∧ hasPfx pat (c :: cs) = true then
      rep ++ replaceFuel pat rep fuel (List.drop (pat.length - 1) cs)
    else
      c :: replaceFuel pat rep fuel cs

/-- Python str.replace(pat, rep) for nonempty pat. -/
def replaceAll (pat rep s : List Char) : List Char := replaceFuel pat rep s.length s

/-- Stable insert for sorting key-length-descending: x goes before the
first strictly shorter key, after all keys of length at least its own. -/
def insertByLenDesc (x : List Char × List Char) :
    List (List Char × List Char) → List (List Char × List Char)
  | [] => [x]
  | y :: ys => if x.1.length > y.1.length then x :: y :: ys else y :: insertByLenDesc x ys

/-- Stable sort by key length descending: Python
sorted(items, key=lambda x: -len(x[0])) — ties keep insertion order. -/
def sortByLenDesc (l : List (List Char × List Char)) : List (List Char × List Char) :=
  l.foldl (fun acc x => insertByLenDesc x acc) []

/-- Split at every separator character, keeping empty tokens
(Python str.split(sep) semantics). -/
def splitOnPred (p : Char → Bool) : List Char → List (List Char)
  | [] => [[]]
  | c :: cs =>
    if p c then [] :: splitOnPred p cs
    else
      match splitOnPred p cs with
      | [] => [[c]]
      | w :: ws => (c :: w) :: ws

/-- Python text.split(' '): empty tokens from repeated spaces are kept. -/
def splitSpace (s : List Char) : List (List Char) := splitOnPred (fun c => c = ' ') s

/-- Python text.split(): split on whitespace runs, no empty tokens
(splitting at every whitespace character and dropping empties). -/
def splitWs (s : List Char) : List (List Char) :=
  (splitOnPred Char.isWhitespace s).filter (fun w => !w.isEmpty)

/-- Python sep.join(words). -/
def joinSep (sep : List Char) : List (List Char) → List Char
  | [] => []
  | [w] => w
  | w :: ws => w ++ sep ++ joinSep sep ws

/-- Python max(words, key=len): the first word of maximal length. -/
def maxByLen : List (List Char) → List Char
  | [] => []
  | w :: ws => ws.foldl (fun best x => if x.length > best.length then x else best) w

/-- One pass of the padding for-loop of compress_to_n_cells: walk src and
append each alphabetic character while fewer than n letters are held. -/
def padPass (n : Nat) (src : List Char) (letters : List Char) : List Char :=
  src.foldl (fun ls c => if c.isAlpha = true ∧ ls.length < n then ls ++ [c] else ls) letters

/-- The while-loop of compress_to_n_cells, with fuel: while fewer than n
letters are held and the word list is nonempty, run one padding pass over
the tail of the longest word.  none means the fuel ran out with the loop
condition still true — the source loop would still be running. -/
def padLoop (n : Nat) (words : List (List Char)) : Nat → List Char → Option (List Char)
  | 0, letters => if letters.length < n ∧ words ≠ [] then none else some letters
  | fuel + 1, letters =>
    if letters.length < n ∧ words ≠ [] then
      padLoop n words fuel (padPass n (maxByLen words).tail letters)
    else some letters

/-- The initial letter selection of compress_to_n_cells: the first
character of each word when that character is alphabetic, capped at n
(Python [w[0] for w in words if w and w[0].isalpha()][:n]). -/
def firstLetters (words : List (List Char)) (n : Nat) : List Char :=
  (words.filterMap (fun w =>
    match w with
    | [] => none
    | c :: _ => if c.isAlpha = true then some c else none)).take n

namespace GenData

/-- generate_data.py G1_MAP. -/
def G1_MAP : List (Char × Char) :=
  [('a', '⠁'), ('b', '⠃'), ('c', '⠉'), ('d', '⠙'), ('e', '⠑'),
   ('f', '⠋'), ('g', '⠛'), ('h', '⠓'), ('i', '⠊'), ('j', '⠚'),
   ('k', '⠅'), ('l', '⠇'), ('m', '⠍'), ('n', '⠝'), ('o', '⠕'),
   ('p', '⠏'), ('q', '⠟'), ('r', '⠗'), ('s', '⠎'), ('t', '⠞'),
   ('u', '⠥'), ('v', '⠧'), ('w', '⠺'), ('x', '⠭'), ('y', '⠽'), ('z', '⠵'),
   (' ', '⠀'), ('.', '⠲'), (',', '⠂'), ('!', '⠖'), ('?', '⠦'), ('-', '⠤')]

/-- generate_data.py G2_WORDSIGNS. -/
def G2_WORDSIGNS : List (List Char × List Char) :=
  [(chars "but", chars "⠃"), (chars "can", chars "⠉"), (chars "do", chars "⠙"),
   (chars "every", chars "⠑"), (chars "from", chars "⠋"),
   (chars "go", chars "⠛"), (chars "have", chars "⠓"), (chars "just", chars "⠚"),
   (chars "knowledge", chars "⠅"), (chars "like", chars "⠇"),
   (chars "more", chars "⠍"), (chars "not", chars "⠝"), (chars "people", chars "⠏"),
   (chars "quite", chars "⠟"), (chars "rather", chars "⠗"),
   (chars "so", chars "⠎"), (chars "that", chars "⠞"), (chars "us", chars "⠥"),
   (chars "very", chars "⠧"), (chars "will", chars "⠺"),
   (chars "it", chars "⠭"), (chars "you", chars "⠽"), (chars "as", chars "⠵")]

/-- generate_data.py G2_STRONG. -/
def G2_STRONG : List (List Char × List Char) :=
  [(chars "the", chars "⠮"), (chars "and", chars "⠯"), (chars "for", chars "⠿"),
   (chars "of", chars "⠷"), (chars "with", chars "⠾"),
   (chars "child", chars "⠡"), (chars "shall", chars "⠩"), (chars "this", chars "⠹"),
   (chars "which", chars "⠱"), (chars "out", chars "⠳"),
   (chars "still", chars "⠌")]

/-- generate_data.py G2_GROUPSIGNS, in insertion order. -/
def G2_GROUPSIGNS : List (List Char × List Char) :=
  [(chars "ch", chars "⠡"), (chars "gh", chars "⠣"), (chars "sh", chars "⠩"),
   (chars "th", chars "⠹"), (chars "wh", chars "⠱"),
   (chars "ed", chars "⠫"), (chars "er", chars "⠻"), (chars "ou", chars "⠳"),
   (chars "ow", chars "⠪"), (chars "st", chars "⠌"),
   (chars "ar", chars "⠜"), (chars "ing", chars "⠬"), (chars "ble", chars "⠼")]

/-- generate_data.py G2_LOWER. -/
def G2_LOWER : List (List Char × List Char) :=
  [(chars "be", chars "⠆"), (chars "enough", chars "⠢"), (chars "were", chars "⠶"),
   (chars "his", chars "⠦"), (chars "in", chars "⠔"),
   (chars "was", chars "⠴"), (chars "to", chars "⠖"), (chars "into", chars "⠔⠖"),
   (chars "by", chars "⠃⠽")]

/-- The groupsign table as iterated by to_braille_g2:
sorted(G2_GROUPSIGNS.items(), key=lambda x: -len(x[0])). -/
def sortedGroupsigns : List (List Char × List Char) := sortByLenDesc G2_GROUPSIGNS

/-- generate_data.py to_braille_g1: pure letter-by-letter translation,
with G1_MAP.get(c.lower(), blank cell). -/
def to_braille_g1 (text : List Char) : List Char :=
  text.map (fun c => (lookupTable G1_MAP c.toLower).getD '⠀')

/-- The per-word body of the loop in generate_data.py to_braille_g2:
whole-word tables in precedence order, otherwise groupsign substitution
longest-first followed by the per-character Grade-1 pass (characters not
in G1_MAP are appended unchanged). -/
def resolveWord (word : List Char) : List Char :=
  match lookupTable G2_STRONG word with
  | some v => v
  | none =>
    match lookupTable G2_WORDSIGNS word with
    | some v => v
    | none =>
      match lookupTable G2_LOWER word with
      | some v => v
      | none =>
        (sortedGroupsigns.foldl (fun acc p => replaceAll p.1 p.2 acc) word).map
          (fun c => (lookupTable G1_MAP c).getD c)

/-- generate_data.py to_braille_g2: lower-case, split on single spaces,
resolve each word, join with the blank separator cell. -/
def to_braille_g2 (text : List Char) : List Char :=
  joinSep (chars "⠀") ((splitSpace (text.map Char.toLower)).map resolveWord)

end GenData

namespace GenHybrid

/-- generate_hybrid.py G1_MAP (adds apostrophe, colon, semicolon and the
digits to the generate_data table; several of these share a cell with a
punctuation character). -/
def G1_MAP : List (Char × Char) :=
  [('a', '⠁'), ('b', '⠃'), ('c', '⠉'), ('d', '⠙'), ('e', '⠑'),
   ('f', '⠋'), ('g', '⠛'), ('h', '⠓'), ('i', '⠊'), ('j', '⠚'),
   ('k', '⠅'), ('l', '⠇'), ('m', '⠍'), ('n', '⠝'), ('o', '⠕'),
   ('p', '⠏'), ('q', '⠟'), ('r', '⠗'), ('s', '⠎'), ('t', '⠞'),
   ('u', '⠥'), ('v', '⠧'), ('w', '⠺'), ('x', '⠭'), ('y', '⠽'),
   ('z', '⠵'), (' ', '⠀'), ('.', '⠲'), (',', '⠂'), ('!', '⠖'),
   ('?', '⠦'), ('-', '⠤'), ('\'', '⠄'), (':', '⠒'), (';', '⠆'),
   ('0', '⠴'), ('1', '⠂'), ('2', '⠆'), ('3', '⠒'), ('4', '⠲'),
   ('5', '⠢'), ('6', '⠖'), ('7', '⠶'), ('8', '⠦'), ('9', '⠔')]

/-- generate_hybrid.py G2_STRONG (identical to generate_data's). -/
def G2_STRONG : List (List Char × List Char) :=
  [(chars "the", chars "⠮"), (chars "and", chars "⠯"), (chars "for", chars "⠿"),
   (chars "of", chars "⠷"), (chars "with", chars "⠾"),
   (chars "child", chars "⠡"), (chars "shall", chars "⠩"), (chars "this", chars "⠹"),
   (chars "which", chars "⠱"), (chars "out", chars "⠳"),
   (chars "still", chars "⠌")]

/-- generate_hybrid.py G2_WORDSIGNS (identical to generate_data's). -/
def G2_WORDSIGNS : List (List Char × List Char) :=
  [(chars "but", chars "⠃"), (chars "can", chars "⠉"), (chars "do", chars "⠙"),
   (chars "every", chars "⠑"), (chars "from", chars "⠋"),
   (chars "go", chars "⠛"), (chars "have", chars "⠓"), (chars "just", chars "⠚"),
   (chars "knowledge", chars "⠅"), (chars "like", chars "⠇"),
   (chars "more", chars "⠍"), (chars "not", chars "⠝"), (chars "people", chars "⠏"),
   (chars "quite", chars "⠟"), (chars "rather", chars "⠗"),
   (chars "so", chars "⠎"), (chars "that", chars "⠞"), (chars "us", chars "⠥"),
   (chars "very", chars "⠧"), (chars "will", chars "⠺"),
   (chars "it", chars "⠭"), (chars "you", chars "⠽"), (chars "as", chars "⠵")]

/-- generate_hybrid.py G2_GROUPSIGNS, in insertion order: the
generate_data clusters plus the two extra entries en and in. -/
def G2_GROUPSIGNS : List (List Char × List Char) :=
  [(chars "ing", chars "⠬"), (chars "ble", chars "⠼"), (chars "ch", chars "⠡"),
   (chars "gh", chars "⠣"), (chars "sh", chars "⠩"),
   (chars "th", chars "⠹"), (chars "wh", chars "⠱"), (chars "ed", chars "⠫"),
   (chars "er", chars "⠻"), (chars "ou", chars "⠳"),
   (chars "ow", chars "⠪"), (chars "st", chars "⠌"), (chars "ar", chars "⠜"),
   (chars "en", chars "⠢"), (chars "in", chars "⠔")]

/-- generate_hybrid.py G2_LOWER (generate_data's table without the
entry for the word in). -/
def G2_LOWER : List (List Char × List Char) :=
  [(chars "be", chars "⠆"), (chars "enough", chars "⠢"), (chars "were", chars "⠶"),
   (chars "his", chars "⠦"), (chars "was", chars "⠴"),
   (chars "to", chars "⠖"), (chars "into", chars "⠔⠖"), (chars "by", chars "⠃⠽")]

/-- generate_hybrid.py G1_REVERSE = dict-inverting G1_MAP; when two keys
share a cell the later insertion wins, modelled by first match over the
reversed swapped list. -/
def G1_REVERSE : List (Char × Char) := (G1_MAP.map (fun p => (p.2, p.1))).reverse

/-- The groupsign table as iterated by encode_g2. -/
def sortedGroupsigns : List (List Char × List Char) := sortByLenDesc G2_GROUPSIGNS

/-- generate_hybrid.py encode_g1. -/
def encode_g1 (text : List Char) : List Char :=
  text.map (fun c => (lookupTable G1_MAP c.toLower).getD '⠀')

/-- generate_hybrid.py decode_g1: reverse lookup, unmatched cells become
a literal space. -/
def decode_g1 (braille : List Char) : List Char :=
  braille.map (fun c => (lookupTable G1_REVERSE c).getD ' ')

/-- The per-word body of the loop in generate_hybrid.py encode_g2. -/
def resolveWord (word : List Char) : List Char :=
  match lookupTable G2_STRONG word with
  | some v => v
  | none =>
    match lookupTable G2_WORDSIGNS word with
    | some v => v
    | none =>
      match lookupTable G2_LOWER word with
      | some v => v
      | none =>
        (sortedGroupsigns.foldl (fun acc p => replaceAll p.1 p.2 acc) word).map
          (fun c => (lookupTable G1_MAP c).getD c)

/-- generate_hybrid.py encode_g2. -/
def encode_g2 (text : List Char) : List Char :=
  joinSep (chars "⠀") ((splitSpace (text.map Char.toLower)).map resolveWord)

/-- generate_hybrid.py compress_to_n_cells, cell-sequence component (the
Python function also returns a descriptive rationale string, metadata with
no correctness contract, not modelled).  The source while-loop is run on
fuel; none means the loop was still running when the fuel ran out. -/
def compress_to_n_cells (text : List Char) (n fuel : Nat) : Option (List Char) :=
  match padLoop n (splitWs (text.map Char.toLower)) fuel
      (firstLetters (splitWs (text.map Char.toLower)) n) with
  | none => none
  | some letters =>
    some ((letters.take n).map (fun l => (lookupTable G1_MAP l).getD '⠀'))

end GenHybrid

/-- The characters shared, with identical cells, by the Grade-1 tables of
generate_data.py and generate_hybrid.py (keys of the former). -/
def commonChars : List Char := chars "abcdefghijklmnopqrstuvwxyz .,!?-"

/-- Characters of generate_hybrid.py G1_MAP whose cell is shared with no
other key, closed under upper case: on these decode inverts encode. -/
def goodChars : List Char :=
  chars "abcdefghijklmnopqrstuvwxyzABCDEFGHIJKLMNOPQRSTUVWXYZ 0579-'"

/-- The first segment of generate_data.py G2_LOWER, before the entry in. -/
def lowerFront : List (List Char × List Char) :=
  [(chars "be", chars "⠆"), (chars "enough", chars "⠢"), (chars "were", chars "⠶"),
   (chars "his", chars "⠦")]

/-- The last segment of generate_data.py G2_LOWER, after the entry in. -/
def lowerBack : List (List Char × List Char) :=
  [(chars "was", chars "⠴"), (chars "to", chars "⠖"), (chars "into", chars "⠔⠖"),
   (chars "by", chars "⠃⠽")]

/-- Words on which the two Grade-2 resolvers are compared: either a
generate_data lower-wordsign, or built from the shared character set and
free of the clusters en and in (the two groupsigns present only in
generate_hybrid.py). -/
def wordOK (w : List Char) : Prop :=
  (∃ p ∈ GenData.G2_LOWER, w = p.1) ∨
  ((∀ c ∈ w, c ∈ commonChars) ∧
    containsPat (chars "en") w = false ∧ containsPat (chars "in") w = false)

instance (w : List Char) : Decidable (wordOK w) :=
  inferInstanceAs (Decidable ((∃ p ∈ GenData.G2_LOWER, w = p.1) ∨
    ((∀ c ∈ w, c ∈ commonChars) ∧
      containsPat (chars "en") w = false ∧ containsPat (chars "in") w = false)))

/-- Modelled from the claim's words (not from the source): the selection
rule "take the first alphabetic character of each word, in word order, up
to n letters", to be compared with the source's firstLetters. -/
def claimFirstAlphaLetters (text : List Char) (n : Nat) : List Char :=
  ((splitWs (text.map Char.toLower)).filterMap (fun w => w.find? Char.isAlpha)).take n

theorem mem_joinSep {sep : List Char} {l : List (List Char)} {c : Char}
    (h : c ∈ joinSep sep l) : c ∈ sep ∨ ∃ w ∈ l, c ∈ w := by
  induction l with
  | nil => simp [joinSep] at h
  | cons w ws ih =>
    cases ws with
    | nil => exact Or.inr ⟨w, by simp, by simpa [joinSep] using h⟩
    | cons x xs =>
      simp only [joinSep] at h
      rcases List.mem_append.mp h with h1 | h2
      · rcases List.mem_append.mp h1 with hw | hs
        · exact Or.inr ⟨w, by simp, hw⟩
        · exact Or.inl hs
      · rcases ih h2 with hs | ⟨w', hw', hc⟩
        · exact Or.inl hs
        · exact Or.inr ⟨w', by simp [hw'], hc⟩

theorem splitOnPred_chars {p : Char → Bool} :
    ∀ {s : List Char}, ∀ w ∈ splitOnPred p s, ∀ c ∈ w, c ∈ s := by
  intro s
  induction s with
  | nil =>
    intro w hw c hc
    simp [splitOnPred] at hw
    subst hw
    simp at hc
  | cons a as ih =>
    intro w hw c hc
    by_cases hpa : p a
    · simp only [splitOnPred, if_pos hpa] at hw
      rcases List.mem_cons.mp hw with rfl | hw'
      · simp at hc
      · exact List.mem_cons_of_mem a (ih w hw' c hc)
    · simp only [splitOnPred, if_neg hpa] at hw
      rcases hsp : splitOnPred p as with _ | ⟨w0, ws⟩
      · rw [hsp] at hw
        rcases List.mem_singleton.mp hw with rfl
        rcases List.mem_singleton.mp hc with rfl
        exact List.mem_cons_self _ _
      · rw [hsp] at hw
        rcases List.mem_cons.mp hw with rfl | hw'
        · rcases List.mem_cons.mp hc with rfl | hc'
          · exact List.mem_cons_self _ _
          · exact List.mem_cons_of_mem a (ih w0 (by rw [hsp]; exact List.mem_cons_self _ _) c hc')
        · exact List.mem_cons_of_mem a
            (ih w (by rw [hsp]; exact List.mem_cons_of_mem w0 hw') c hc)

theorem replaceFuel_mem {pat rep : List Char} :
    ∀ {f : Nat} {s : List Char} {c : Char}, c ∈ replaceFuel pat rep f s → c ∈ rep ∨ c ∈ s := by
  intro f
  induction f with
  | zero => intro s c h; exact Or.inr (by simpa [replaceFuel] using h)
  | succ f ih =>
    intro s c h
    cases s with
    | nil => simp [replaceFuel] at h
    | cons a as =>
      simp only [replaceFuel] at h
      split at h
      · rcases List.mem_append.mp h with h1 | h2
        · exact Or.inl h1
        · rcases ih h2 with h3 | h4
          · exact Or.inl h3
          · exact Or.inr (List.mem_cons_of_mem a (List.drop_subset _ _ h4))
      · rcases List.mem_cons.mp h with rfl | h2
        · exact Or.inr (List.mem_cons_self _ _)
        · rcases ih h2 with h3 | h4
          · exact Or.inl h3
          · exact Or.inr (List.mem_cons_of_mem a h4)

theorem foldl_replace_mem :
    ∀ (l : List (List Char × List Char)) (w : List Char) (c : Char),
      c ∈ l.foldl (fun acc q => replaceAll q.1 q.2 acc) w →
      c ∈ w ∨ ∃ q ∈ l, c ∈ q.2 := by
  intro l
  induction l with
  | nil => intro w c h; exact Or.inl (by simpa using h)
  | cons p ps ih =>
    intro w c h
    rw [List.foldl_cons] at h
    rcases ih _ c h with h1 | ⟨q, hq, hc⟩
    · rw [replaceAll] at h1
      rcases replaceFuel_mem h1 with h2 | h3
      · exact Or.inr ⟨p, by simp, h2⟩
      · exact Or.inl h3
    · exact Or.inr ⟨q, by simp [hq], hc⟩

theorem lookupTable_mem {α β : Type} [DecidableEq α] :
    ∀ {t : List (α × β)} {k : α} {v : β}, lookupTable t k = some v → (k, v) ∈ t := by
  intro t
  induction t with
  | nil => intro k v h; simp [lookupTable] at h
  | cons p ps ih =>
    intro k v h
    obtain ⟨pk, pv⟩ := p
    simp only [lookupTable] at h
    by_cases hk : pk = k
    · rw [if_pos hk] at h
      subst hk
      rcases Option.some.inj h with rfl
      exact List.mem_cons_self _ _
    · rw [if_neg hk] at h
      exact List.mem_cons_of_mem _ (ih h)

theorem lookupTable_none {α β : Type} [DecidableEq α] :
    ∀ {t : List (α × β)} {k : α}, (∀ p ∈ t, p.1 ≠ k) → lookupTable t k = none := by
  intro t
  induction t with
  | nil => intro k _; rfl
  | cons p ps ih =>
    intro k h
    obtain ⟨pk, pv⟩ := p
    simp only [lookupTable]
    rw [if_neg (h (pk, pv) (List.mem_cons_self _ _))]
    exact ih (fun q hq => h q (List.mem_cons_of_mem _ hq))

theorem lookupTable_of_key {α β : Type} [DecidableEq α] :
    ∀ {t : List (α × β)} {k : α}, k ∈ t.map Prod.fst → ∃ v, lookupTable t k = some v := by
  intro t
  induction t with
  | nil => intro k h; simp at h
  | cons p ps ih =>
    intro k h
    obtain ⟨pk, pv⟩ := p
    simp only [lookupTable]
    by_cases hk : pk = k
    · exact ⟨pv, if_pos hk⟩
    · rw [List.map_cons] at h
      rcases List.mem_cons.mp h with h1 | h2
      · exact absurd h1.symm hk
      · rcases ih h2 with ⟨v, hv⟩
        exact ⟨v, by rw [if_neg hk]; exact hv⟩

theorem lookupTable_append {α β : Type} [DecidableEq α] (l₁ l₂ : List (α × β)) (k : α) :
    lookupTable (l₁ ++ l₂) k =
      match lookupTable l₁ k with
      | some v => some v
      | none => lookupTable l₂ k := by
  induction l₁ with
  | nil => simp [lookupTable]
  | cons p ps ih =>
    obtain ⟨pk, pv⟩ := p
    rw [List.cons_append]
    simp only [lookupTable]
    by_cases hk : pk = k
    · simp [hk]
    · simp only [if_neg hk]
      exact ih

theorem replaceFuel_no_occ {pat rep : List Char} :
    ∀ {f : Nat} {s : List Char}, containsPat pat s = false → replaceFuel pat rep f s = s := by
  intro f
  induction f with
  | zero => intro s _; rfl
  | succ f ih =>
    intro s h
    cases s with
    | nil => rfl
    | cons a as =>
      rw [containsPat] at h
      obtain ⟨h1, h2⟩ := Bool.or_eq_false_iff.mp h
      simp only [replaceFuel]
      rw [if_neg]
      · rw [ih h2]
      · rintro ⟨_, hpfx⟩
        rw [h1] at hpfx
        exact Bool.false_ne_true hpfx

theorem containsPat_drop {pat : List Char} :
    ∀ {s : List Char} {k : Nat}, containsPat pat s = false → containsPat pat (s.drop k) = false := by
  intro s
  induction s with
  | nil =>
    intro k h
    cases k <;> simpa using h
  | cons a as ih =>
    intro k h
    cases k with
    | zero => simpa using h
    | succ k =>
      rw [containsPat] at h
      exact ih (Bool.or_eq_false_iff.mp h).2

theorem containsPat_append_skip (pat' : List Char) {t : List Char} {a : Char} {rep : List Char}
    (hrep : ∀ c ∈ rep, isBrailleCell c = true)
    (hhead : pat'.head? = some a) (ha : isBrailleCell a = false) :
    containsPat pat' (rep ++ t) = containsPat pat' t := by
  induction rep with
  | nil => simp
  | cons r rs ih =>
    have hr : isBrailleCell r = true := hrep r (List.mem_cons_self _ _)
    have har : (a == r) = false := by
      rcases h : a == r with _ | _
      · rfl
      · rw [eq_of_beq h, hr] at ha
        exact absurd ha (by simp)
    rw [List.cons_append, containsPat]
    have hpfx : hasPfx pat' (r :: (rs ++ t)) = false := by
      cases pat' with
      | nil => simp at hhead
      | cons p ps =>
        have hp : p = a := by simpa using hhead
        rw [hasPfx, hp, har, Bool.false_and]
    rw [hpfx, Bool.false_or]
    exact ih (fun c hc => hrep c (List.mem_cons_of_mem _ hc))

theorem replaceFuel_head {pat rep : List Char} (hne : rep ≠ []) :
    ∀ {f : Nat} {s : List Char} {x : Char},
      (replaceFuel pat rep f s).head? = some x → x ∈ rep ∨ s.head? = some x := by
  intro f s x h
  cases f with
  | zero => exact Or.inr h
  | succ f =>
    cases s with
    | nil => simp [replaceFuel] at h
    | cons a as =>
      simp only [replaceFuel] at h
      split at h
      · cases rep with
        | nil => exact absurd rfl hne
        | cons r rs =>
          rw [List.cons_append] at h
          simp only [List.head?_cons, Option.some.injEq] at h
          exact Or.inl (by rw [← h]; exact List.mem_cons_self _ _)
      · simp only [List.head?_cons, Option.some.injEq] at h
        exact Or.inr (by rw [← h]; rfl)

theorem replaceFuel_no_new {a b : Char} {pat rep : List Char}
    (ha : isBrailleCell a = false) (hb : isBrailleCell b = false)
    (hne : rep ≠ []) (hrep : ∀ c ∈ rep, isBrailleCell c = true) :
    ∀ {f : Nat} {s : List Char}, containsPat [a, b] s = false →
      containsPat [a, b] (replaceFuel pat rep f s) = false := by
  intro f
  induction f with
  | zero => intro s h; exact h
  | succ f ih =>
    intro s h
    cases s with
    | nil => exact h
    | cons c0 cs =>
      rw [containsPat] at h
      obtain ⟨h1, h2⟩ := Bool.or_eq_false_iff.mp h
      simp only [replaceFuel]
      split
      · rw [containsPat_append_skip [a, b] hrep rfl ha]
        exact ih (containsPat_drop h2)
      · rw [containsPat]
        refine Bool.or_eq_false_iff.mpr ⟨?_, ih h2⟩
        rw [hasPfx]
        rcases hac : a == c0 with _ | _
        · rw [Bool.false_and]
        · rw [Bool.true_and]
          rcases ht' : replaceFuel pat rep f cs with _ | ⟨x, xs⟩
          · rfl
          · rw [hasPfx]
            rcases hbx : b == x with _ | _
            · rw [Bool.false_and]
            · exfalso
              have hx : x ∈ rep ∨ cs.head? = some x :=
                replaceFuel_head hne (f := f) (s := cs) (by rw [ht']; rfl)
              have hbx' : b = x := eq_of_beq hbx
              rcases hx with hxr | hxc
              · have hbr : isBrailleCell x = true := hrep x hxr
                rw [← hbx', hb] at hbr
                exact Bool.false_ne_true hbr
              · cases cs with
                | nil => simp at hxc
                | cons y ys =>
                  have hy : y = x := by simpa using hxc
                  rw [hasPfx, hac, Bool.true_and, hasPfx, hy, hbx, Bool.true_and] at h1
                  rw [hasPfx] at h1
                  simp at h1

theorem foldl_replace_no_new {a b : Char}
    (ha : isBrailleCell a = false) (hb : isBrailleCell b = false) :
    ∀ (l : List (List Char × List Char)) (w : List Char),
      (∀ q ∈ l, q.2 ≠ [] ∧ ∀ c ∈ q.2, isBrailleCell c = true) →
      containsPat [a, b] w = false →
      containsPat [a, b] (l.foldl (fun acc q => replaceAll q.1 q.2 acc) w) = false := by
  intro l
  induction l with
  | nil => intro w _ h; simpa using h
  | cons p ps ih =>
    intro w hl h
    rw [List.foldl_cons]
    refine ih _ (fun q hq => hl q (List.mem_cons_of_mem _ hq)) ?_
    have hp := hl p (List.mem_cons_self _ _)
    rw [replaceAll]
    exact replaceFuel_no_new ha hb hp.1 hp.2 h

theorem padLoop_done (n : Nat) (words : List (List Char)) (letters : List Char)
    (h : ¬(letters.length < n ∧ words ≠ [])) :
    ∀ fuel, padLoop n words fuel letters = some letters := by
  intro fuel
  cases fuel with
  | zero => simp only [padLoop]; rw [if_neg h]
  | succ f => simp only [padLoop]; rw [if_neg h]

theorem padLoop_stuck {n : Nat} {words : List (List Char)} {letters : List Char}
    (h1 : letters.length < n) (h2 : words ≠ [])
    (h3 : padPass n (maxByLen words).tail letters = letters) :
    ∀ fuel, padLoop n words fuel letters = none := by
  intro fuel
  induction fuel with
  | zero => simp only [padLoop]; rw [if_pos ⟨h1, h2⟩]
  | succ f ih => simp only [padLoop]; rw [if_pos ⟨h1, h2⟩, h3]; exact ih

/-- Claim C1: Grade-2 encoding resolves every whitespace-split word in
strict precedence order, stopping at the first match — Strong Contraction
table first, then Wordsign table, then Lower Wordsign table, and only
otherwise groupsign substitution; in particular "the" encodes to the
single Strong Contraction cell and "this" to its single cell. -/
theorem c1_g2_precedence :
    (∀ w v, lookupTable GenData.G2_STRONG w = some v → GenData.resolveWord w = v) ∧
    (∀ w v, lookupTable GenData.G2_STRONG w = none →
      lookupTable GenData.G2_WORDSIGNS w = some v → GenData.resolveWord w = v) ∧
    (∀ w v, lookupTable GenData.G2_STRONG w = none →
      lookupTable GenData.G2_WORDSIGNS w = none →
      lookupTable GenData.G2_LOWER w = some v → GenData.resolveWord w = v) ∧
    GenData.to_braille_g2 (chars "the") = chars "⠮" ∧
    GenData.to_braille_g2 (chars "this") = chars "⠹" := by
  refine ⟨?_, ?_, ?_, by decide, by decide⟩
  · intro w v h
    simp [GenData.resolveWord, h]
  · intro w v h1 h2
    simp [GenData.resolveWord, h1, h2]
  · intro w v h1 h2 h3
    simp [GenData.resolveWord, h1, h2, h3]

theorem c1_g2_precedence_witness :
    GenData.resolveWord (chars "and") = chars "⠯" ∧
    GenData.resolveWord (chars "can") = chars "⠉" ∧
    GenData.resolveWord (chars "be") = chars "⠆" :=
  ⟨c1_g2_precedence.1 _ _ (by decide),
   c1_g2_precedence.2.1 _ _ (by decide) (by decide),
   c1_g2_precedence.2.2.1 _ _ (by decide) (by decide) (by decide)⟩

/-- Claim C2 (code bug): the claim states compress_to_n_cells always
terminates, returning a shorter-than-requested sequence when the phrase
has insufficient alphabetic material.  In the source, when the longest
word contributes no further alphabetic characters, the while-loop body
leaves the letter list unchanged while the loop condition stays true: on
phrase "a" with n = 2 the loop never exits.  In the fuelled model, no
amount of fuel completes the call. -/
theorem c2_compress_diverges (fuel : Nat) :
    GenHybrid.compress_to_n_cells (chars "a") 2 fuel = none := by
  have h : padLoop 2 (splitWs ((chars "a").map Char.toLower)) fuel
      (firstLetters (splitWs ((chars "a").map Char.toLower)) 2) = none :=
    padLoop_stuck (by decide) (by decide) (by decide) fuel
  simp only [GenHybrid.compress_to_n_cells, h]

/-- Claim C4: both Grade-1 encoders return exactly one cell per input
character, for every input string. -/
theorem c4_g1_length (s : List Char) :
    (GenData.to_braille_g1 s).length = s.length ∧
    (GenHybrid.encode_g1 s).length = s.length :=
  ⟨by simp [GenData.to_braille_g1], by simp [GenHybrid.encode_g1]⟩

/-- Claim C5: the groupsign pass iterates the table sorted by key length
descending (3-letter clusters ing and ble first, ties in insertion
order), each entry applied as a global substring replacement; in
particular "thing" resolves its suffix with the ing groupsign, encoding
to the two cells ⠹⠬. -/
theorem c5_groupsign_longest :
    GenData.sortedGroupsigns =
      [(chars "ing", chars "⠬"), (chars "ble", chars "⠼"), (chars "ch", chars "⠡"),
       (chars "gh", chars "⠣"), (chars "sh", chars "⠩"), (chars "th", chars "⠹"),
       (chars "wh", chars "⠱"), (chars "ed", chars "⠫"), (chars "er", chars "⠻"),
       (chars "ou", chars "⠳"), (chars "ow", chars "⠪"), (chars "st", chars "⠌"),
       (chars "ar", chars "⠜")] ∧
    List.Pairwise (fun p q : List Char × List Char => q.1.length ≤ p.1.length)
      GenData.sortedGroupsigns ∧
    GenData.to_braille_g2 (chars "thing") = chars "⠹⠬" :=
  ⟨by decide, by decide, by decide⟩

/-- Claim C8: Grade-2 encoding joins the per-word cell sequences with the
blank Word-Separator cell; in particular "the cat" encodes to the Strong
Contraction cell for "the", the separator, then the three Grade-1 cells
of c, a, t. -/
theorem c8_word_join :
    (∀ s : List Char, GenData.to_braille_g2 s =
      joinSep (chars "⠀") ((splitSpace (s.map Char.toLower)).map GenData.resolveWord)) ∧
    GenData.to_braille_g2 (chars "the cat") = chars "⠮⠀⠉⠁⠞" :=
  ⟨fun _ => rfl, by decide⟩

/-- Claim C9: the empty phrase and empty words produce empty cell
sequences without error, and empty tokens from repeated single-space
delimiters are preserved as empty segments framed by separator cells:
two consecutive spaces yield two adjacent separator cells. -/
theorem c9_empty_segments :
    GenData.to_braille_g2 (chars "") = chars "" ∧
    GenData.resolveWord (chars "") = chars "" ∧
    splitSpace (chars "a  b") = [chars "a", chars "", chars "b"] ∧
    GenData.to_braille_g2 (chars "a  b") = chars "⠁⠀⠀⠃" :=
  ⟨by decide, by decide, by decide, by decide⟩

/-- Claim C7 (counterexample): the claim's selection rule "the first
alphabetic character of each word" does not match the source, which takes
a word's first character only when that character is itself alphabetic
and otherwise skips the word.  On "4cat dog" with n = 2 the source
collects d (from dog) and then pads with c from the longest word, giving
⠙⠉, while the claimed rule selects c, d giving ⠉⠙. -/
theorem c7_first_letters_counterexample :
    GenHybrid.compress_to_n_cells (chars "4cat dog") 2 2 = some (chars "⠙⠉") ∧
    (claimFirstAlphaLetters (chars "4cat dog") 2).map
      (fun l => (lookupTable GenHybrid.G1_MAP l).getD '⠀') = chars "⠉⠙" ∧
    chars "⠙⠉" ≠ chars "⠉⠙" :=
  ⟨by decide, by decide, by decide⟩

/-- Claim C7 (amended): compress_to_n_cells first selects the first
character of each word when that character is alphabetic (words whose
first character is not alphabetic contribute nothing to this step), in
word order, up to n letters; whenever this initial selection already
yields n letters the result is exactly their Grade-1 cells, and in
particular ("artificial intelligence", 2) yields the 2-cell sequence ⠁⠊
for the letters a and i. -/
theorem c7_first_letters_amended :
    (∀ (text : List Char) (n fuel : Nat),
      n ≤ (firstLetters (splitWs (text.map Char.toLower)) n).length →
      GenHybrid.compress_to_n_cells text n fuel =
        some ((firstLetters (splitWs (text.map Char.toLower)) n).map
          (fun l => (lookupTable GenHybrid.G1_MAP l).getD '⠀'))) ∧
    (∀ fuel, GenHybrid.compress_to_n_cells (chars "artificial intelligence") 2 fuel =
      some (chars "⠁⠊")) := by
  have main : ∀ (text : List Char) (n fuel : Nat),
      n ≤ (firstLetters (splitWs (text.map Char.toLower)) n).length →
      GenHybrid.compress_to_n_cells text n fuel =
        some ((firstLetters (splitWs (text.map Char.toLower)) n).map
          (fun l => (lookupTable GenHybrid.G1_MAP l).getD '⠀')) := by
    intro text n fuel h
    have hd := padLoop_done n (splitWs (text.map Char.toLower))
      (firstLetters (splitWs (text.map Char.toLower)) n)
      (fun hc => absurd h (by omega)) fuel
    have htake : (firstLetters (splitWs (text.map Char.toLower)) n).take n =
        firstLetters (splitWs (text.map Char.toLower)) n := by
      apply List.take_of_length_le
      rw [firstLetters, List.length_take]
      exact min_le_left _ _
    simp only [GenHybrid.compress_to_n_cells, hd, htake]
  exact ⟨main, fun fuel => (main (chars "artificial intelligence") 2 fuel (by decide)).trans
    (by decide)⟩

theorem c7_first_letters_amended_witness :
    GenHybrid.compress_to_n_cells (chars "artificial intelligence") 2 7 = some (chars "⠁⠊") :=
  (c7_first_letters_amended.1 (chars "artificial intelligence") 2 7 (by decide)).trans (by decide)

/-- Claim C3 (counterexample): the full stop is a supported character (a
key of the hybrid Grade-1 table), yet it does not round-trip: its cell ⠲
is also the cell of the digit 4, which was inserted later, so the
derived reverse table decodes ⠲ to 4. -/
theorem c3_roundtrip_counterexample :
    ('.', '⠲') ∈ GenHybrid.G1_MAP ∧
    GenHybrid.decode_g1 (GenHybrid.encode_g1 (chars ".")) = chars "4" ∧
    chars "4" ≠ chars "." :=
  ⟨by decide, by decide, by decide⟩

theorem goodChars_roundtrip : ∀ c ∈ goodChars,
    (lookupTable GenHybrid.G1_REVERSE
      ((lookupTable GenHybrid.G1_MAP c.toLower).getD '⠀')).getD ' ' = c.toLower := by decide

/-- Claim C3 (amended): decode_g1 inverts encode_g1, up to case folding,
on every string whose characters have uniquely-mapped cells — the
letters (either case), space, hyphen, apostrophe and the digits 0, 5, 7,
9; the characters sharing a cell with a later-inserted digit (. , ! ? :
;) decode to that digit instead.  In particular "hello" round-trips. -/
theorem c3_g1_roundtrip_amended (s : List Char) (h : ∀ c ∈ s, c ∈ goodChars) :
    GenHybrid.decode_g1 (GenHybrid.encode_g1 s) = s.map Char.toLower := by
  induction s with
  | nil => rfl
  | cons a as ih =>
    have ha := goodChars_roundtrip a (h a (List.mem_cons_self _ _))
    have has := ih (fun c hc => h c (List.mem_cons_of_mem _ hc))
    simp only [GenHybrid.encode_g1, GenHybrid.decode_g1, List.map_cons] at has ⊢
    exact congrArg₂ List.cons ha has

theorem c3_g1_roundtrip_witness :
    GenHybrid.decode_g1 (GenHybrid.encode_g1 (chars "hello")) = chars "hello" :=
  (c3_g1_roundtrip_amended (chars "hello") (by decide)).trans (by decide)

theorem dataTables_values_braille :
    (∀ p ∈ GenData.G2_STRONG, ∀ c ∈ p.2, isBrailleCell c = true) ∧
    (∀ p ∈ GenData.G2_WORDSIGNS, ∀ c ∈ p.2, isBrailleCell c = true) ∧
    (∀ p ∈ GenData.G2_LOWER, ∀ c ∈ p.2, isBrailleCell c = true) ∧
    (∀ p ∈ GenData.sortedGroupsigns, p.2 ≠ [] ∧ ∀ c ∈ p.2, isBrailleCell c = true) ∧
    (∀ p ∈ GenData.G1_MAP, isBrailleCell p.2 = true ∧ isBrailleCell p.1 = false) := by
  decide

theorem hybridG1_keys_not_braille : ∀ p ∈ GenHybrid.G1_MAP, isBrailleCell p.1 = false := by
  decide

theorem dataG1_lookup_braille {c : Char} (hc : isBrailleCell c = true) :
    lookupTable GenData.G1_MAP c = none := by
  apply lookupTable_none
  intro p hp he
  have hk := (dataTables_values_braille.2.2.2.2 p hp).2
  rw [he] at hk
  rw [hk] at hc
  exact Bool.false_ne_true hc

theorem hybridG1_lookup_braille {c : Char} (hc : isBrailleCell c = true) :
    lookupTable GenHybrid.G1_MAP c = none := by
  apply lookupTable_none
  intro p hp he
  have hk := hybridG1_keys_not_braille p hp
  rw [he] at hk
  rw [hk] at hc
  exact Bool.false_ne_true hc

theorem resolveWord_braille {w : List Char}
    (h : ∀ c ∈ w, c ∈ GenData.G1_MAP.map Prod.fst) :
    ∀ c ∈ GenData.resolveWord w, isBrailleCell c = true := by
  intro c hc
  unfold GenData.resolveWord at hc
  rcases h1 : lookupTable GenData.G2_STRONG w with _ | v1
  case some =>
    rw [h1] at hc
    exact dataTables_values_braille.1 _ (lookupTable_mem h1) c hc
  rw [h1] at hc
  rcases h2 : lookupTable GenData.G2_WORDSIGNS w with _ | v2
  case some =>
    rw [h2] at hc
    exact dataTables_values_braille.2.1 _ (lookupTable_mem h2) c hc
  rw [h2] at hc
  rcases h3 : lookupTable GenData.G2_LOWER w with _ | v3
  case some =>
    rw [h3] at hc
    exact dataTables_values_braille.2.2.1 _ (lookupTable_mem h3) c hc
  rw [h3] at hc
  simp only [List.mem_map] at hc
  rcases hc with ⟨c', hc', hcc⟩
  rcases foldl_replace_mem _ _ _ hc' with hcw | ⟨q, hq, hcv⟩
  · rcases lookupTable_of_key (h c' hcw) with ⟨v, hv⟩
    rw [hv] at hcc
    rw [← hcc]
    exact (dataTables_values_braille.2.2.2.2 _ (lookupTable_mem hv)).1
  · have hbc : isBrailleCell c' = true := (dataTables_values_braille.2.2.2.1 q hq).2 c' hcv
    rw [dataG1_lookup_braille hbc] at hcc
    rw [← hcc]
    exact hbc

/-- Claim C6 (counterexample): the Grade-2 per-letter pass does not apply
the Grade-1 blank-cell fallback; a character outside the Grade-1 table is
appended unchanged, so to_braille_g2 "@" is the literal "@", which is
neither a Braille cell nor the separator cell. -/
theorem c6_unmapped_counterexample :
    GenData.to_braille_g2 (chars "@") = chars "@" ∧
    isBrailleCell '@' = false ∧ '@' ≠ '⠀' :=
  ⟨by decide, by decide, by decide⟩

/-- Claim C6 (amended): for every word matching no whole-word table, every
character remaining after groupsign substitution is passed through the
Grade-1 letter table when it is a key of that table, and kept unchanged
otherwise; consequently, for every input whose characters lower-case into
the Grade-1 table, every character of the Grade-2 output is a Braille
cell (the word-separator cell included). -/
theorem c6_g2_output_cells (s : List Char)
    (h : ∀ c ∈ s, c.toLower ∈ GenData.G1_MAP.map Prod.fst) :
    ∀ c ∈ GenData.to_braille_g2 s, isBrailleCell c = true := by
  intro c hc
  unfold GenData.to_braille_g2 at hc
  rcases mem_joinSep hc with hsep | ⟨w', hw', hcw⟩
  · rcases List.mem_singleton.mp hsep with rfl
    decide
  · simp only [List.mem_map] at hw'
    rcases hw' with ⟨w, hw, rfl⟩
    refine resolveWord_braille ?_ c hcw
    intro c' hc'
    have hcs : c' ∈ s.map Char.toLower := splitOnPred_chars w hw c' hc'
    simp only [List.mem_map] at hcs
    rcases hcs with ⟨a, ha, rfl⟩
    exact h a ha

theorem c6_g2_output_cells_witness : isBrailleCell '⠮' = true :=
  c6_g2_output_cells (chars "the cat!") (by decide) '⠮' (by decide)

theorem lower_lookup_eq {w : List Char} (hw : w ≠ chars "in") :
    lookupTable GenData.G2_LOWER w = lookupTable GenHybrid.G2_LOWER w := by
  have h1 : GenData.G2_LOWER = lowerFront ++ (chars "in", chars "⠔") :: lowerBack := by decide
  have h2 : GenHybrid.G2_LOWER = lowerFront ++ lowerBack := by decide
  rw [h1, h2, lookupTable_append, lookupTable_append]
  cases lookupTable lowerFront w with
  | some v => rfl
  | none =>
    simp only [lookupTable]
    rw [if_neg (fun he => hw he.symm)]

theorem lower_words_agree : ∀ p ∈ GenData.G2_LOWER,
    GenData.resolveWord p.1 = GenHybrid.resolveWord p.1 := by decide

theorem extra_folds_noop (w0 : List Char)
    (hen : containsPat (chars "en") w0 = false)
    (hin : containsPat (chars "in") w0 = false) :
    List.foldl (fun acc q => replaceAll q.1 q.2 acc) w0
      [(chars "en", chars "⠢"), (chars "in", chars "⠔")] = w0 := by
  simp only [List.foldl_cons, List.foldl_nil]
  have h1 : replaceAll (chars "en") (chars "⠢") w0 = w0 := by
    unfold replaceAll
    exact replaceFuel_no_occ hen
  rw [h1]
  unfold replaceAll
  exact replaceFuel_no_occ hin

theorem commonChars_g1_agree : ∀ c ∈ commonChars,
    (lookupTable GenData.G1_MAP c).getD c = (lookupTable GenHybrid.G1_MAP c).getD c := by
  decide

theorem groupsign_pass_agree (w : List Char)
    (hchars : ∀ c ∈ w, c ∈ commonChars)
    (hen : containsPat (chars "en") w = false)
    (hin : containsPat (chars "in") w = false) :
    (GenData.sortedGroupsigns.foldl (fun acc q => replaceAll q.1 q.2 acc) w).map
      (fun c => (lookupTable GenData.G1_MAP c).getD c) =
    (GenHybrid.sortedGroupsigns.foldl (fun acc q => replaceAll q.1 q.2 acc) w).map
      (fun c => (lookupTable GenHybrid.G1_MAP c).getD c) := by
  have hprops : ∀ q ∈ GenData.sortedGroupsigns,
      q.2 ≠ [] ∧ ∀ c ∈ q.2, isBrailleCell c = true := by decide
  have hsplit : GenHybrid.sortedGroupsigns =
      GenData.sortedGroupsigns ++ [(chars "en", chars "⠢"), (chars "in", chars "⠔")] := by
    decide
  have hen' : containsPat (chars "en")
      (GenData.sortedGroupsigns.foldl (fun acc q => replaceAll q.1 q.2 acc) w) = false :=
    foldl_replace_no_new (a := 'e') (b := 'n') (by decide) (by decide) _ w hprops hen
  have hin' : containsPat (chars "in")
      (GenData.sortedGroupsigns.foldl (fun acc q => replaceAll q.1 q.2 acc) w) = false :=
    foldl_replace_no_new (a := 'i') (b := 'n') (by decide) (by decide) _ w hprops hin
  rw [hsplit, List.foldl_append, extra_folds_noop _ hen' hin']
  apply List.map_congr_left
  intro c hc
  rcases foldl_replace_mem _ _ _ hc with hcw | ⟨q, hq, hcv⟩
  · exact commonChars_g1_agree c (hchars c hcw)
  · have hbc : isBrailleCell c = true := (hprops q hq).2 c hcv
    rw [dataG1_lookup_braille hbc, hybridG1_lookup_braille hbc]

theorem resolveWord_agree (w : List Char) (h : wordOK w) :
    GenData.resolveWord w = GenHybrid.resolveWord w := by
  rcases h with ⟨p, hp, rfl⟩ | ⟨hchars, hen, hin⟩
  · exact lower_words_agree p hp
  · have hw_in : w ≠ chars "in" := by
      intro hw
      rw [hw] at hin
      exact absurd hin (by decide)
    unfold GenData.resolveWord GenHybrid.resolveWord
    rw [show GenHybrid.G2_STRONG = GenData.G2_STRONG from by decide,
        show GenHybrid.G2_WORDSIGNS = GenData.G2_WORDSIGNS from by decide,
        ← lower_lookup_eq hw_in]
    rcases h1 : lookupTable GenData.G2_STRONG w with _ | v1
    case some => rfl
    rcases h2 : lookupTable GenData.G2_WORDSIGNS w with _ | v2
    case some => rfl
    rcases h3 : lookupTable GenData.G2_LOWER w with _ | v3
    case some => rfl
    exact groupsign_pass_agree w hchars hen hin

/-- Claim C10 (counterexample): the two Grade-2 encoders are not the same
function — generate_hybrid's groupsign table has entries for en and in
that generate_data's lacks, so "ten" encodes to three letter cells in
generate_data.py but to ⠞⠢ in generate_hybrid.py. -/
theorem c10_encoders_differ :
    GenData.to_braille_g2 (chars "ten") = chars "⠞⠑⠝" ∧
    GenHybrid.encode_g2 (chars "ten") = chars "⠞⠢" ∧
    chars "⠞⠑⠝" ≠ chars "⠞⠢" :=
  ⟨by decide, by decide, by decide⟩

/-- Claim C10 (amended): the two Grade-2 encoders agree on every input
each of whose lower-cased space-split words is either a generate_data
lower-wordsign or is built from the shared character set (letters and the
punctuation both Grade-1 tables map identically) and contains neither of
the letter clusters en and in — the two groupsigns present only in
generate_hybrid.py.  Outside that set they can differ ("ten", "don't"). -/
theorem c10_encoders_agree_amended (s : List Char)
    (h : ∀ w ∈ splitSpace (s.map Char.toLower), wordOK w) :
    GenData.to_braille_g2 s = GenHybrid.encode_g2 s := by
  unfold GenData.to_braille_g2 GenHybrid.encode_g2
  congr 1
  apply List.map_congr_left
  intro w hw
  exact resolveWord_agree w (h w hw)

theorem c10_encoders_agree_witness :
    GenData.to_braille_g2 (chars "the old cat.") = GenHybrid.encode_g2 (chars "the old cat.") :=
  c10_encoders_agree_amended (chars "the old cat.") (by decide)
